import Mathlib

set_option maxRecDepth 8000

/-!
Verification of the Birthmark content-authenticity core against its source:
`src/Birthmark/hash.py` (fingerprinting) and `src/Birthmark/blockchain.py`
(ledger backends, factory, module-level convenience functions).

Python bytes are modelled as `List Nat` (values below 256), Python `str` as
`String`, `datetime` objects as an opaque wrapper around their ISO rendering
(the source only ever calls `.isoformat()` on them), float GPS coordinates as
exact rationals (the source stores and returns them without any arithmetic),
exceptions as `Except`, and the wall clock as an explicit `now` parameter.
-/

namespace Birthmark

/-- Modelled from `hashlib`: the SHA-2 hash functions the source delegates to
(`hashlib.new(algorithm)`), implemented per FIPS 180-4.  Word arithmetic uses
`Nat` with explicit reduction modulo `2 ^ bits`. -/
def wmod (bits x : Nat) : Nat := x % 2 ^ bits

/-- Right rotation of a `bits`-wide word. -/
def rotr (bits n x : Nat) : Nat := wmod bits ((x >>> n) ||| (x <<< (bits - n)))

/-- SHA-2 choice function; bitwise complement is xor with the all-ones word. -/
def ch (bits x y z : Nat) : Nat := (x &&& y) ^^^ ((x ^^^ (2 ^ bits - 1)) &&& z)

/-- SHA-2 majority function. -/
def maj (x y z : Nat) : Nat := (x &&& y) ^^^ (x &&& z) ^^^ (y &&& z)

/-- The eight working registers / chaining values of SHA-2. -/
structure Hv where
  a : Nat
  b : Nat
  c : Nat
  d : Nat
  e : Nat
  f : Nat
  g : Nat
  h : Nat

/-- Parameters distinguishing SHA-256 from SHA-512: word width, block size,
length-field size, round count, the rotation/shift triples of the four sigma
functions, round constants and initial chaining value. -/
structure ShaCfg where
  bits : Nat
  blockBytes : Nat
  lenBytes : Nat
  rounds : Nat
  s0r : Nat × Nat × Nat
  s1r : Nat × Nat × Nat
  g0r : Nat × Nat × Nat
  g1r : Nat × Nat × Nat
  K : List Nat
  H0 : Hv

/-- Big sigma: xor of three right rotations. -/
def bSig (bits : Nat) (r : Nat × Nat × Nat) (x : Nat) : Nat :=
  rotr bits r.1 x ^^^ rotr bits r.2.1 x ^^^ rotr bits r.2.2 x

/-- Small sigma: xor of two right rotations and a right shift. -/
def sSig (bits : Nat) (r : Nat × Nat × Nat) (x : Nat) : Nat :=
  rotr bits r.1 x ^^^ rotr bits r.2.1 x ^^^ (x >>> r.2.2)

/-- Strict application: matching on the `Nat` constructor forces the argument
to a numeral before the continuation sees it, keeping kernel evaluation of the
iterated compression shallow.  Semantically `forceNat n k = k n`. -/
def forceNat (n : Nat) (k : Nat → α) : α :=
  match n with
  | 0 => k 0
  | m + 1 => k (m + 1)

/-- Strict application for a register bank: forces all eight registers. -/
def forceHv (hv : Hv) (k : Hv → α) : α :=
  forceNat hv.a fun a => forceNat hv.b fun b => forceNat hv.c fun c =>
  forceNat hv.d fun d => forceNat hv.e fun e => forceNat hv.f fun f =>
  forceNat hv.g fun g => forceNat hv.h fun h => k ⟨a, b, c, d, e, f, g, h⟩

/-- Big-endian byte rendering of `x` in exactly `k` bytes. -/
def beBytes : Nat → Nat → List Nat
  | 0, _ => []
  | k + 1, x => beBytes k (x / 256) ++ [x % 256]

/-- SHA-2 message padding: a `0x80` byte, zero bytes, then the bit length,
bringing the total to a multiple of the block size. -/
def padMsg (cfg : ShaCfg) (msg : List Nat) : List Nat :=
  let rem := (msg.length + 1 + cfg.lenBytes) % cfg.blockBytes
  let zeros := if rem = 0 then 0 else cfg.blockBytes - rem
  msg ++ 128 :: (List.replicate zeros 0 ++ beBytes cfg.lenBytes (8 * msg.length))

/-- Split a list into chunks of `n` elements (fuelled; callers pass enough fuel). -/
def chunksF : Nat → Nat → List Nat → List (List Nat)
  | 0, _, _ => []
  | _ + 1, _, [] => []
  | fuel + 1, n, x :: xs => (x :: xs).take n :: chunksF fuel n ((x :: xs).drop n)

/-- Big-endian word from a list of bytes. -/
def wordOfBytes (l : List Nat) : Nat := l.foldl (fun acc b => 256 * acc + b) 0

/-- Split a byte block into big-endian words of `wordBytes` bytes. -/
def bytesToWords (wordBytes : Nat) (l : List Nat) : List Nat :=
  (chunksF (l.length + 1) wordBytes l).map wordOfBytes

/-- Message-schedule extension: append `k` further words to the schedule. -/
def extendWAux (bits : Nat) (g0r g1r : Nat × Nat × Nat) : Nat → List Nat → List Nat
  | 0, w => w
  | k + 1, w =>
    let t := w.length
    let x := wmod bits (sSig bits g1r (w.getD (t - 2) 0) + w.getD (t - 7) 0 +
      sSig bits g0r (w.getD (t - 15) 0) + w.getD (t - 16) 0)
    forceNat x fun v => extendWAux bits g0r g1r k (w ++ [v])

/-- One SHA-2 compression round; `kw` is the (round constant, schedule word) pair. -/
def shaRound (bits : Nat) (s0r s1r : Nat × Nat × Nat) (hv : Hv) (kw : Nat × Nat) : Hv :=
  let t1 := wmod bits (hv.h + bSig bits s1r hv.e + ch bits hv.e hv.f hv.g + kw.1 + kw.2)
  let t2 := wmod bits (bSig bits s0r hv.a + maj hv.a hv.b hv.c)
  ⟨wmod bits (t1 + t2), hv.a, hv.b, hv.c, wmod bits (hv.d + t1), hv.e, hv.f, hv.g⟩

/-- The round loop: `shaRound` folded over the (constant, schedule word) pairs,
with each intermediate register bank forced strictly. -/
def roundsGo (bits : Nat) (s0r s1r : Nat × Nat × Nat) : List (Nat × Nat) → Hv → Hv
  | [], hv => hv
  | kw :: rest, hv => forceHv (shaRound bits s0r s1r hv kw) (roundsGo bits s0r s1r rest)

/-- Compress one message block into the chaining value. -/
def processBlock (cfg : ShaCfg) (hv : Hv) (block : List Nat) : Hv :=
  let w16 := bytesToWords (cfg.bits / 8) block
  let w := extendWAux cfg.bits cfg.g0r cfg.g1r (cfg.rounds - 16) w16
  let r := roundsGo cfg.bits cfg.s0r cfg.s1r (cfg.K.zip w) hv
  forceHv
    ⟨wmod cfg.bits (hv.a + r.a), wmod cfg.bits (hv.b + r.b), wmod cfg.bits (hv.c + r.c),
     wmod cfg.bits (hv.d + r.d), wmod cfg.bits (hv.e + r.e), wmod cfg.bits (hv.f + r.f),
     wmod cfg.bits (hv.g + r.g), wmod cfg.bits (hv.h + r.h)⟩ id

/-- Lower-case hex digit for a value below 16. -/
def hexChar (d : Nat) : Char := if d < 10 then Char.ofNat (48 + d) else Char.ofNat (87 + d)

/-- Lower-case hex rendering of `x` in exactly `k` nibbles, most significant first. -/
def toHexNibbles : Nat → Nat → List Char
  | 0, _ => []
  | k + 1, x => toHexNibbles k (x / 16) ++ [hexChar (x % 16)]

/-- Hex rendering of the eight chaining words, `nib` nibbles each. -/
def hvToHex (nib : Nat) (hv : Hv) : List Char :=
  toHexNibbles nib hv.a ++ toHexNibbles nib hv.b ++ toHexNibbles nib hv.c ++
  toHexNibbles nib hv.d ++ toHexNibbles nib hv.e ++ toHexNibbles nib hv.f ++
  toHexNibbles nib hv.g ++ toHexNibbles nib hv.h

/-- The hex digest of a byte message under a SHA-2 configuration
(`hashlib.new(a, data).hexdigest()`). -/
def shaHex (cfg : ShaCfg) (msg : List Nat) : String :=
  let padded := padMsg cfg msg
  let final := (chunksF (padded.length + 1) cfg.blockBytes padded).foldl (processBlock cfg) cfg.H0
  String.mk (hvToHex (cfg.bits / 4) final)

/-- The first 80 primes; FIPS 180-4 derives the SHA-2 constants from their
square and cube roots. -/
def primes80 : List Nat :=
  [2, 3, 5, 7, 11, 13, 17, 19, 23, 29, 31, 37, 41, 43, 47, 53, 59, 61, 67, 71,
   73, 79, 83, 89, 97, 101, 103, 107, 109, 113, 127, 131, 137, 139, 149, 151,
   157, 163, 167, 173, 179, 181, 191, 193, 197, 199, 211, 223, 227, 229, 233,
   239, 241, 251, 257, 263, 269, 271, 277, 281, 283, 293, 307, 311, 313, 317,
   331, 337, 347, 349, 353, 359, 367, 373, 379, 383, 389, 397, 401, 409]

/-- Bisection step for the integer cube root (`lo ^ 3 ≤ n < hi ^ 3` invariant). -/
def icbrtAux (n : Nat) : Nat → Nat → Nat → Nat
  | 0, lo, _ => lo
  | fuel + 1, lo, hi =>
    let m := (lo + hi) / 2
    if m ≤ lo then lo
    else if m ^ 3 ≤ n then icbrtAux n fuel m hi
    else icbrtAux n fuel lo m

/-- Integer cube root by bisection; 400 halvings cover every operand used here. -/
def icbrt (n : Nat) : Nat := icbrtAux n 400 0 (n + 2)

/-- Bisection step for the integer square root (`lo ^ 2 ≤ n < hi ^ 2` invariant). -/
def isqrtAux (n : Nat) : Nat → Nat → Nat → Nat
  | 0, lo, _ => lo
  | fuel + 1, lo, hi =>
    let m := (lo + hi) / 2
    if m ≤ lo then lo
    else if m ^ 2 ≤ n then isqrtAux n fuel m hi
    else isqrtAux n fuel lo m

/-- Integer square root by bisection; 400 halvings cover every operand used here. -/
def isqrt (n : Nat) : Nat := isqrtAux n 400 0 (n + 2)

/-- First `bits` fractional bits of the square root of `p`. -/
def fracSqrt (bits p : Nat) : Nat := isqrt (p * 2 ^ (2 * bits)) % 2 ^ bits

/-- First `bits` fractional bits of the cube root of `p`. -/
def fracCbrt (bits p : Nat) : Nat := icbrt (p * 2 ^ (3 * bits)) % 2 ^ bits

/-- SHA-2 initial chaining value: fractional square roots of the first 8 primes. -/
def shaH0 (bits : Nat) : Hv :=
  ⟨fracSqrt bits 2, fracSqrt bits 3, fracSqrt bits 5, fracSqrt bits 7,
   fracSqrt bits 11, fracSqrt bits 13, fracSqrt bits 17, fracSqrt bits 19⟩

/-- SHA-256 parameters (FIPS 180-4). -/
def sha256Cfg : ShaCfg :=
  ⟨32, 64, 8, 64, (2, 13, 22), (6, 11, 25), (7, 18, 3), (17, 19, 10),
   (primes80.take 64).map (fracCbrt 32), shaH0 32⟩

/-- SHA-512 parameters (FIPS 180-4). -/
def sha512Cfg : ShaCfg :=
  ⟨64, 128, 16, 80, (28, 34, 39), (14, 18, 41), (1, 8, 7), (19, 61, 6),
   primes80.map (fracCbrt 64), shaH0 64⟩

/-- Python `datetime` modelled by its ISO rendering, the only part of it the
source reads (`timestamp.isoformat()` in `MockBlockchain.record_hash`). -/
structure Datetime where
  iso : String
deriving DecidableEq

/-- Model of `datetime.isoformat`. -/
def Datetime.isoformat (t : Datetime) : String := t.iso

/-- The Python exceptions the modelled code can raise. -/
inductive PyError where
  | valueError (msg : String)
  | importError (msg : String)
  | connectionError (msg : String)
  | notImplementedError (msg : String)
deriving DecidableEq

namespace Hash

/-- Modelled from `hashlib.algorithms_available`: that set is fixed for a given
interpreter but environment-dependent; we model it by the two algorithms the
spec names, one 256-bit and one 512-bit digest, both guaranteed members of
every Python `hashlib` (`hashlib.algorithms_guaranteed`). -/
def algorithms_available : List String := ["sha256", "sha512"]

/-- Model of `hashlib.new(algorithm, data).hexdigest()` for the supported
algorithms; callers only reach this behind the membership check, so the final
catch-all branch is unreachable from `compute_image_hash`. -/
def hexdigest (algorithm : String) (data : List Nat) : String :=
  if algorithm = "sha512" then shaHex sha512Cfg data else shaHex sha256Cfg data

/-- Embeds `hash.compute_image_hash` (src/Birthmark/hash.py lines 13-107).
The wall-clock read `datetime.utcnow()` becomes the explicit `now` argument. -/
def compute_image_hash (now : Datetime) (image_data : List Nat) (algorithm : String) :
    Except PyError (String × Datetime) :=
  if algorithm ∉ algorithms_available then
    .error (.valueError ("Unsupported algorithm: " ++ algorithm))
  else
    .ok (hexdigest algorithm image_data, now)

/-- Embeds `hash.verify_hash` (src/Birthmark/hash.py lines 243-403):
recompute and compare with Python string equality (case-sensitive, exact). -/
def verify_hash (now : Datetime) (image_data : List Nat) (expected_hash : String)
    (algorithm : String) : Except PyError Bool :=
  match compute_image_hash now image_data algorithm with
  | .error e => .error e
  | .ok r => .ok (r.1 == expected_hash)

end Hash

namespace Chain

/-- Embeds the `BirthmarkRecord` dataclass (src/Birthmark/blockchain.py lines
52-81).  GPS floats are modelled as exact rationals: the source stores and
returns them without arithmetic. -/
structure BirthmarkRecord where
  hash : String
  timestamp : String
  camera_id : String
  geolocation : Option (Rat × Rat)
  transaction_id : Option String
  block_number : Option Nat
  network : Option String
deriving DecidableEq

/-- The in-memory store `self._records : Dict[str, BirthmarkRecord]`. -/
abbrev RecordMap := List (String × BirthmarkRecord)

/-- Python dict insertion: overwrite the entry in place if the key exists,
else append (insertion order preserved, as in CPython dicts). -/
def dictInsert (m : RecordMap) (k : String) (v : BirthmarkRecord) : RecordMap :=
  match m with
  | [] => [(k, v)]
  | p :: rest => if p.1 = k then (k, v) :: rest else p :: dictInsert rest k v

/-- Python `dict.get`: the value at the key, or `none`. -/
def dictGet (m : RecordMap) (k : String) : Option BirthmarkRecord :=
  match m with
  | [] => none
  | p :: rest => if p.1 = k then some p.2 else dictGet rest k

/-- Decimal digits of `n`, most significant first (fuelled; `n` needs at most
`n + 1` divisions by ten). -/
def decDigitsAux : Nat → Nat → List Char
  | 0, _ => []
  | fuel + 1, n =>
    if n < 10 then [Char.ofNat (48 + n)]
    else decDigitsAux fuel (n / 10) ++ [Char.ofNat (48 + n % 10)]

/-- Decimal rendering of a natural number. -/
def decDigits (n : Nat) : List Char := decDigitsAux (n + 1) n

/-- Python `format(n, "08d")`: decimal, left-padded with zeros to width 8. -/
def pad8 (n : Nat) : String :=
  String.mk (List.replicate (8 - (decDigits n).length) '0' ++ decDigits n)

/-- Embeds the `MockBlockchain` state (src/Birthmark/blockchain.py lines
165-177): network tag, latency flag, record map and the two counters. -/
structure MockBlockchain where
  network : String
  simulate_delay : Bool
  _records : RecordMap
  _transaction_counter : Nat
  _block_counter : Nat
deriving DecidableEq

/-- Embeds `MockBlockchain.__init__`: empty store, transaction counter 0,
block counter 1000. -/
def MockBlockchain.init (network : String) (simulate_delay : Bool) : MockBlockchain :=
  { network := network, simulate_delay := simulate_delay, _records := [],
    _transaction_counter := 0, _block_counter := 1000 }

/-- Embeds `MockBlockchain.record_hash` (src/Birthmark/blockchain.py lines
179-214).  The simulated `time.sleep` latency has no effect on state or result
and is not modelled.  Returns the transaction id and the updated backend. -/
def MockBlockchain.record_hash (bc : MockBlockchain) (image_hash : String)
    (timestamp : Datetime) (camera_id : String) (geolocation : Option (Rat × Rat)) :
    String × MockBlockchain :=
  let tc := bc._transaction_counter + 1
  let tx_id := "mock_tx_" ++ pad8 tc
  let record : BirthmarkRecord :=
    { hash := image_hash, timestamp := timestamp.isoformat, camera_id := camera_id,
      geolocation := geolocation, transaction_id := some tx_id,
      block_number := some bc._block_counter, network := some bc.network }
  let recs := dictInsert bc._records image_hash record
  let blk := if tc % 10 = 0 then bc._block_counter + 1 else bc._block_counter
  (tx_id, { bc with _records := recs, _transaction_counter := tc, _block_counter := blk })

/-- Embeds `MockBlockchain.verify_hash` (src/Birthmark/blockchain.py lines
216-226): `self._records.get(image_hash)`. -/
def MockBlockchain.verify_hash (bc : MockBlockchain) (image_hash : String) :
    Option BirthmarkRecord :=
  dictGet bc._records image_hash

/-- One (hash, timestamp, camera_id, geolocation) batch tuple. -/
abbrev BatchTup := String × Datetime × String × Option (Rat × Rat)

/-- The loop body of `batch_record_hashes`: submit each tuple through
`record_hash`, appending each returned id to the accumulator `tx_ids`. -/
def batchLoop (bc : MockBlockchain) (tx_ids : List String) :
    List BatchTup → List String × MockBlockchain
  | [] => (tx_ids, bc)
  | (h, t, c, g) :: rest =>
    let r := bc.record_hash h t c g
    batchLoop r.2 (tx_ids ++ [r.1]) rest

/-- Embeds `MockBlockchain.batch_record_hashes` (src/Birthmark/blockchain.py
lines 228-243): a loop of individual `record_hash` calls collecting ids. -/
def MockBlockchain.batch_record_hashes (bc : MockBlockchain) (records : List BatchTup) :
    List String × MockBlockchain :=
  batchLoop bc [] records

/-- The spec's definition of batch submission (spec section 4.3): submit each
tuple via `submit` in input order and collect the returned transaction ids.
Stated from the spec's words, to be compared with `batch_record_hashes`. -/
def submitBatchSpec (bc : MockBlockchain) : List BatchTup → List String × MockBlockchain
  | [] => ([], bc)
  | (h, t, c, g) :: rest =>
    let r := bc.record_hash h t c g
    let rec2 := submitBatchSpec r.2 rest
    (r.1 :: rec2.1, rec2.2)

/-- The dictionary returned by `MockBlockchain.get_stats` (src/Birthmark/
blockchain.py lines 245-252). -/
structure Stats where
  total_records : Nat
  current_block : Nat
  total_transactions : Nat
  network : String
deriving DecidableEq

/-- Embeds `MockBlockchain.get_stats`. -/
def MockBlockchain.get_stats (bc : MockBlockchain) : Stats :=
  ⟨bc._records.length, bc._block_counter, bc._transaction_counter, bc.network⟩

/-- One public mock-backend operation, for stating invariants over arbitrary
operation sequences. -/
inductive MockOp where
  | record (image_hash : String) (timestamp : Datetime) (camera_id : String)
      (geolocation : Option (Rat × Rat))
  | batch (records : List BatchTup)
  | verify (image_hash : String)
  | stats

/-- State effect of one operation (`verify_hash` and `get_stats` are read-only). -/
def applyOp (bc : MockBlockchain) : MockOp → MockBlockchain
  | .record f t c g => (bc.record_hash f t c g).2
  | .batch rs => (bc.batch_record_hashes rs).2
  | .verify _ => bc
  | .stats => bc

/-- Run a sequence of operations from a state. -/
def run (bc : MockBlockchain) (ops : List MockOp) : MockBlockchain :=
  ops.foldl applyOp bc

/-- The fingerprints submitted by one operation. -/
def opHashes : MockOp → List String
  | .record f _ _ _ => [f]
  | .batch rs => rs.map (fun r => r.1)
  | .verify _ => []
  | .stats => []

/-- Iterate `record_hash` over a list of argument tuples (state only). -/
def runRecords (bc : MockBlockchain) (tups : List BatchTup) : MockBlockchain :=
  tups.foldl (fun s r => (s.record_hash r.1 r.2.1 r.2.2.1 r.2.2.2).2) bc

/-- The claimed reachable-state invariant of the mock backend. -/
def MockInvariant (bc : MockBlockchain) : Prop :=
  bc._block_counter = 1000 + bc._transaction_counter / 10 ∧
  ∀ p ∈ bc._records, ∃ b, p.2.block_number = some b ∧ 1000 ≤ b ∧ b ≤ bc._block_counter

/-- ASCII lowering of one character, as Python `str.lower` acts on the ASCII
backend names used here. -/
def lowerChar (c : Char) : Char :=
  if 65 ≤ c.toNat ∧ c.toNat ≤ 90 then Char.ofNat (c.toNat + 32) else c

/-- Model of Python `str.lower` for the factory's backend-name matching. -/
def pyLower (s : String) : String := String.mk (s.data.map lowerChar)

/-- Bool-valued substring test, for stating what an error message names. -/
def hasSub (pat : List Char) : List Char → Bool
  | [] => pat.isEmpty
  | c :: rest => pat.isPrefixOf (c :: rest) || hasSub pat rest

/-- The parts of the Python environment the `EthereumBlockchain` constructor
touches: whether `web3` imports, and which provider URLs connect. -/
structure PyEnv where
  web3_available : Bool
  connects : String → Bool

/-- Embeds the `EthereumBlockchain` field state (src/Birthmark/blockchain.py
lines 268-309). -/
structure EthereumBlockchain where
  network : String
  provider_url : Option String
  private_key : Option String
  contract_address : Option String
deriving DecidableEq

/-- Embeds `EthereumBlockchain.__init__`: the `web3` import is attempted
first, then a missing `provider_url` raises `ValueError`, and an unreachable
node raises `ConnectionError`. -/
def EthereumBlockchain.init (env : PyEnv) (network : String) (provider_url : Option String)
    (private_key : Option String) (contract_address : Option String) :
    Except PyError EthereumBlockchain :=
  if env.web3_available = false then
    .error (.importError "web3.py is required for Ethereum backend. Install with: pip install web3")
  else
    match provider_url with
    | some url =>
      if env.connects url then
        .ok { network := network, provider_url := some url, private_key := private_key,
              contract_address := contract_address }
      else .error (.connectionError ("Failed to connect to Ethereum node at " ++ url))
    | none => .error (.valueError "provider_url is required for Ethereum backend")

/-- Embeds the `LoopringBlockchain` field state (src/Birthmark/blockchain.py
lines 370-389); its constructor always succeeds. -/
structure LoopringBlockchain where
  network : String
  api_key : Option String
  account_id : Option Int
deriving DecidableEq

/-- A constructed backend instance, as returned by the factory. -/
inductive BlockchainIface where
  | mock (b : MockBlockchain)
  | ethereum (b : EthereumBlockchain)
  | loopring (b : LoopringBlockchain)
deriving DecidableEq

/-- The keyword arguments the factory forwards to backend constructors; absent
fields take the constructors' Python defaults. -/
structure BackendKwargs where
  network : Option String
  simulate_delay : Option Bool
  provider_url : Option String
  private_key : Option String
  contract_address : Option String
  api_key : Option String
  account_id : Option Int
deriving DecidableEq

/-- Embeds `get_blockchain_interface` (src/Birthmark/blockchain.py lines
440-484): lower-case the name, dispatch on it, and otherwise raise
`ValueError` naming the (lowered) value and the known set. -/
def get_blockchain_interface (env : PyEnv) (backend : String) (kwargs : BackendKwargs) :
    Except PyError BlockchainIface :=
  let b := pyLower backend
  if b = "mock" then
    .ok (.mock (MockBlockchain.init (kwargs.network.getD "mock-testnet")
      (kwargs.simulate_delay.getD true)))
  else if b = "ethereum" then
    (EthereumBlockchain.init env (kwargs.network.getD "sepolia") kwargs.provider_url
      kwargs.private_key kwargs.contract_address).map .ethereum
  else if b = "loopring" then
    .ok (.loopring ⟨kwargs.network.getD "mainnet", kwargs.api_key, kwargs.account_id⟩)
  else
    .error (.valueError ("Unknown backend: " ++ b ++ ". Available: mock, ethereum, loopring"))

/-- Embeds the convenience function `record_to_blockchain` (src/Birthmark/
blockchain.py lines 489-520): build a fresh backend via the factory, submit
once, return the transaction id; the backend instance is discarded.  The
unimplemented backends raise `NotImplementedError` from their `record_hash`. -/
def record_to_blockchain (env : PyEnv) (image_hash : String) (timestamp : Datetime)
    (camera_id : String) (geolocation : Option (Rat × Rat)) (backend : String)
    (kwargs : BackendKwargs) : Except PyError String :=
  match get_blockchain_interface env backend kwargs with
  | .error e => .error e
  | .ok (.mock b) => .ok (b.record_hash image_hash timestamp camera_id geolocation).1
  | .ok (.ethereum _) => .error (.notImplementedError
      "Ethereum backend is in development. Use MockBlockchain for testing or help implement this!")
  | .ok (.loopring _) => .error (.notImplementedError
      "Loopring backend is in development. This is the future production implementation. Use MockBlockchain for testing or EthereumBlockchain for testnet.")

/-- Embeds the convenience function `verify_from_blockchain` (src/Birthmark/
blockchain.py lines 523-550): build a fresh backend via the factory and look
the hash up in it. -/
def verify_from_blockchain (env : PyEnv) (image_hash : String) (backend : String)
    (kwargs : BackendKwargs) : Except PyError (Option BirthmarkRecord) :=
  match get_blockchain_interface env backend kwargs with
  | .error e => .error e
  | .ok (.mock b) => .ok (b.verify_hash image_hash)
  | .ok (.ethereum _) => .error (.notImplementedError
      "Ethereum backend is in development. Use MockBlockchain for testing or help implement this!")
  | .ok (.loopring _) => .error (.notImplementedError
      "Loopring backend is in development. Use MockBlockchain for testing or EthereumBlockchain for testnet.")

end Chain

/-- A concrete timestamp for witnesses. -/
def now0 : Datetime := ⟨"2025-11-02T18:45:23"⟩

/-- A second concrete timestamp for witnesses. -/
def now1 : Datetime := ⟨"2025-11-02T19:00:00"⟩

/-- A concrete Python environment for witnesses: web3 importable, every URL
reachable. -/
def env0 : Chain.PyEnv := ⟨true, fun _ => true⟩

/-- Empty keyword arguments: every constructor default applies. -/
def kwargs0 : Chain.BackendKwargs := ⟨none, none, none, none, none, none, none⟩

/-! From here on: lemmas and the claim theorems. -/

namespace Chain

theorem dictGet_dictInsert_self (m : RecordMap) (k : String) (v : BirthmarkRecord) :
    dictGet (dictInsert m k v) k = some v := by
  induction m with
  | nil => simp [dictInsert, dictGet]
  | cons p rest ih =>
    by_cases h : p.1 = k
    · simp [dictInsert, dictGet, h]
    · simp [dictInsert, dictGet, h, ih]

theorem mem_dictInsert {m : RecordMap} {k : String} {v : BirthmarkRecord}
    {p : String × BirthmarkRecord} (h : p ∈ dictInsert m k v) : p = (k, v) ∨ p ∈ m := by
  induction m with
  | nil => simpa [dictInsert] using h
  | cons q rest ih =>
    by_cases hq : q.1 = k
    · simp only [dictInsert, hq, if_true, List.mem_cons] at h
      rcases h with h | h
      · exact Or.inl h
      · exact Or.inr (List.mem_cons_of_mem q h)
    · simp only [dictInsert, hq, if_false, List.mem_cons] at h
      rcases h with h | h
      · exact Or.inr (h ▸ List.mem_cons_self q rest)
      · rcases ih h with h2 | h2
        · exact Or.inl h2
        · exact Or.inr (List.mem_cons_of_mem q h2)

theorem dictGet_eq_none {m : RecordMap} {k : String} (h : ∀ p ∈ m, p.1 ≠ k) :
    dictGet m k = none := by
  induction m with
  | nil => rfl
  | cons q rest ih =>
    simp only [dictGet, h q (List.mem_cons_self q rest), if_false]
    exact ih fun p hp => h p (List.mem_cons_of_mem q hp)

theorem transaction_counter_record_hash (bc : MockBlockchain) (f : String) (t : Datetime)
    (c : String) (g : Option (Rat × Rat)) :
    ((bc.record_hash f t c g).2)._transaction_counter = bc._transaction_counter + 1 := rfl

theorem block_counter_le_record_hash (bc : MockBlockchain) (f : String) (t : Datetime)
    (c : String) (g : Option (Rat × Rat)) :
    bc._block_counter ≤ ((bc.record_hash f t c g).2)._block_counter := by
  simp only [MockBlockchain.record_hash]
  split <;> omega

theorem mem_records_record_hash {bc : MockBlockchain} {p : String × BirthmarkRecord}
    (f : String) (t : Datetime) (c : String) (g : Option (Rat × Rat))
    (h : p ∈ ((bc.record_hash f t c g).2)._records) : p.1 = f ∨ p ∈ bc._records := by
  simp only [MockBlockchain.record_hash] at h
  rcases mem_dictInsert h with h2 | h2
  · exact Or.inl (by rw [h2])
  · exact Or.inr h2

theorem mockInvariant_init (network : String) (d : Bool) :
    MockInvariant (MockBlockchain.init network d) := by
  constructor
  · simp [MockBlockchain.init]
  · intro p hp
    simp [MockBlockchain.init] at hp

theorem mockInvariant_record_hash {bc : MockBlockchain} (f : String) (t : Datetime)
    (c : String) (g : Option (Rat × Rat)) (h : MockInvariant bc) :
    MockInvariant ((bc.record_hash f t c g).2) := by
  obtain ⟨h1, h2⟩ := h
  constructor
  · show (if (bc._transaction_counter + 1) % 10 = 0 then bc._block_counter + 1
      else bc._block_counter) = 1000 + (bc._transaction_counter + 1) / 10
    split <;> omega
  · intro p hp
    simp only [MockBlockchain.record_hash] at hp
    rcases mem_dictInsert hp with h3 | h3
    · refine ⟨bc._block_counter, by rw [h3], by omega, ?_⟩
      exact block_counter_le_record_hash bc f t c g
    · obtain ⟨b, hb, hb1, hb2⟩ := h2 p h3
      exact ⟨b, hb, hb1, le_trans hb2 (block_counter_le_record_hash bc f t c g)⟩

theorem batchLoop_eq_spec : ∀ (rs : List BatchTup) (bc : MockBlockchain) (acc : List String),
    batchLoop bc acc rs = (acc ++ (submitBatchSpec bc rs).1, (submitBatchSpec bc rs).2) := by
  intro rs
  induction rs with
  | nil => intro bc acc; simp [batchLoop, submitBatchSpec]
  | cons r rest ih =>
    intro bc acc
    obtain ⟨h, t, c, g⟩ := r
    simp [batchLoop, submitBatchSpec, ih]

theorem length_submitBatchSpec : ∀ (rs : List BatchTup) (bc : MockBlockchain),
    (submitBatchSpec bc rs).1.length = rs.length := by
  intro rs
  induction rs with
  | nil => intro bc; simp [submitBatchSpec]
  | cons r rest ih =>
    intro bc
    obtain ⟨h, t, c, g⟩ := r
    simp [submitBatchSpec, ih]

/-- C7: `batch_record_hashes` returns one transaction id per input tuple, in
input order, and both its result and its state effect coincide with submitting
each tuple through `record_hash` in input order (the spec's `submitBatch`). -/
theorem C7_batch_refines_sequential_submit (bc : MockBlockchain) (records : List BatchTup) :
    bc.batch_record_hashes records = submitBatchSpec bc records ∧
    (bc.batch_record_hashes records).1.length = records.length := by
  have h := batchLoop_eq_spec records bc []
  constructor
  · simpa [MockBlockchain.batch_record_hashes] using h
  · simp [MockBlockchain.batch_record_hashes, h, length_submitBatchSpec]

/-- C1: after `record_hash f t s g`, `verify_hash f` on the updated backend
returns a record whose `transaction_id` is set (to the returned id, hence not
`None`) and whose `block_number` is at least the block counter as it stood
before the submission. -/
theorem C1_record_then_verify (bc : MockBlockchain) (f : String) (t : Datetime)
    (c : String) (g : Option (Rat × Rat)) :
    ∃ rec : BirthmarkRecord,
      ((bc.record_hash f t c g).2).verify_hash f = some rec ∧
      rec.transaction_id = some (bc.record_hash f t c g).1 ∧
      rec.transaction_id ≠ none ∧
      ∃ b, rec.block_number = some b ∧ bc._block_counter ≤ b := by
  refine ⟨⟨f, t.isoformat, c, g, some ("mock_tx_" ++ pad8 (bc._transaction_counter + 1)),
      some bc._block_counter, some bc.network⟩,
    ?_, rfl, by simp, bc._block_counter, rfl, le_refl _⟩
  simp [MockBlockchain.record_hash, MockBlockchain.verify_hash, dictGet_dictInsert_self]

theorem mockInvariant_submitBatchSpec : ∀ (rs : List BatchTup) {bc : MockBlockchain},
    MockInvariant bc → MockInvariant (submitBatchSpec bc rs).2 := by
  intro rs
  induction rs with
  | nil => intro bc h; simpa [submitBatchSpec] using h
  | cons r rest ih =>
    intro bc h
    obtain ⟨f, t, c, g⟩ := r
    simpa [submitBatchSpec] using ih (mockInvariant_record_hash f t c g h)

theorem block_counter_le_submitBatchSpec : ∀ (rs : List BatchTup) (bc : MockBlockchain),
    bc._block_counter ≤ ((submitBatchSpec bc rs).2)._block_counter := by
  intro rs
  induction rs with
  | nil => intro bc; simp [submitBatchSpec]
  | cons r rest ih =>
    intro bc
    obtain ⟨f, t, c, g⟩ := r
    simp only [submitBatchSpec]
    exact le_trans (block_counter_le_record_hash bc f t c g) (ih _)

theorem mem_records_submitBatchSpec : ∀ (rs : List BatchTup) (bc : MockBlockchain)
    (p : String × BirthmarkRecord), p ∈ ((submitBatchSpec bc rs).2)._records →
    p.1 ∈ rs.map (fun r => r.1) ∨ p ∈ bc._records := by
  intro rs
  induction rs with
  | nil => intro bc p hp; simpa [submitBatchSpec] using hp
  | cons r rest ih =>
    intro bc p hp
    obtain ⟨f, t, c, g⟩ := r
    simp only [submitBatchSpec] at hp
    rcases ih _ p hp with h2 | h2
    · exact Or.inl (by simpa using Or.inr (by simpa using h2))
    · rcases mem_records_record_hash f t c g h2 with h3 | h3
      · exact Or.inl (by simp [h3])
      · exact Or.inr h3

theorem mockInvariant_applyOp {bc : MockBlockchain} (op : MockOp) (h : MockInvariant bc) :
    MockInvariant (applyOp bc op) := by
  cases op with
  | record f t c g => exact mockInvariant_record_hash f t c g h
  | batch rs =>
    have he := batchLoop_eq_spec rs bc []
    simpa [applyOp, MockBlockchain.batch_record_hashes, he]
      using mockInvariant_submitBatchSpec rs h
  | verify f => exact h
  | stats => exact h

theorem block_counter_le_applyOp (bc : MockBlockchain) (op : MockOp) :
    bc._block_counter ≤ (applyOp bc op)._block_counter := by
  cases op with
  | record f t c g => exact block_counter_le_record_hash bc f t c g
  | batch rs =>
    have he := batchLoop_eq_spec rs bc []
    simpa [applyOp, MockBlockchain.batch_record_hashes, he]
      using block_counter_le_submitBatchSpec rs bc
  | verify f => exact le_refl _
  | stats => exact le_refl _

theorem mem_records_applyOp {bc : MockBlockchain} {p : String × BirthmarkRecord}
    (op : MockOp) (hp : p ∈ (applyOp bc op)._records) :
    p.1 ∈ opHashes op ∨ p ∈ bc._records := by
  cases op with
  | record f t c g =>
    rcases mem_records_record_hash f t c g hp with h | h
    · exact Or.inl (by simp [opHashes, h])
    · exact Or.inr h
  | batch rs =>
    have he := batchLoop_eq_spec rs bc []
    rw [applyOp, MockBlockchain.batch_record_hashes, he] at hp
    simpa [opHashes] using mem_records_submitBatchSpec rs bc p hp
  | verify f => exact Or.inr hp
  | stats => exact Or.inr hp

theorem mockInvariant_run : ∀ (ops : List MockOp) {bc : MockBlockchain},
    MockInvariant bc → MockInvariant (run bc ops) := by
  intro ops
  induction ops with
  | nil => intro bc h; simpa [run] using h
  | cons op rest ih =>
    intro bc h
    simpa [run] using ih (mockInvariant_applyOp op h)

theorem block_counter_le_run : ∀ (ops : List MockOp) (bc : MockBlockchain),
    bc._block_counter ≤ (run bc ops)._block_counter := by
  intro ops
  induction ops with
  | nil => intro bc; simp [run]
  | cons op rest ih =>
    intro bc
    refine le_trans (block_counter_le_applyOp bc op) ?_
    simpa [run] using ih (applyOp bc op)

theorem mem_records_run : ∀ (ops : List MockOp) (bc : MockBlockchain)
    (p : String × BirthmarkRecord), p ∈ (run bc ops)._records →
    (∃ op ∈ ops, p.1 ∈ opHashes op) ∨ p ∈ bc._records := by
  intro ops
  induction ops with
  | nil => intro bc p hp; exact Or.inr (by simpa [run] using hp)
  | cons op rest ih =>
    intro bc p hp
    rw [show run bc (op :: rest) = run (applyOp bc op) rest from rfl] at hp
    rcases ih _ p hp with ⟨op2, hop2, hf⟩ | h2
    · exact Or.inl ⟨op2, List.mem_cons_of_mem op hop2, hf⟩
    · rcases mem_records_applyOp op h2 with h3 | h3
      · exact Or.inl ⟨op, List.mem_cons_self op rest, h3⟩
      · exact Or.inr h3

/-- C9: from a fresh mock backend, after any sequence of operations the block
counter equals `1000 + transaction_counter / 10`, every stored record carries a
block number between 1000 and the current block counter, and the block counter
never decreases across any operation sequence from any state. -/
theorem C9_counter_invariant (network : String) (d : Bool) (ops : List MockOp) :
    MockInvariant (run (MockBlockchain.init network d) ops) ∧
    (∀ (bc : MockBlockchain) (ops2 : List MockOp),
      bc._block_counter ≤ (run bc ops2)._block_counter) :=
  ⟨mockInvariant_run ops (mockInvariant_init network d),
   fun bc ops2 => block_counter_le_run ops2 bc⟩

/-- C4: looking up a fingerprint that no operation ever submitted returns
`none` (absence is a result, not an error; the embedding is total). -/
theorem C4_lookup_never_submitted (network : String) (d : Bool) (ops : List MockOp)
    (f : String) (h : ∀ op ∈ ops, f ∉ opHashes op) :
    (run (MockBlockchain.init network d) ops).verify_hash f = none := by
  apply dictGet_eq_none
  intro p hp he
  rcases mem_records_run ops _ p hp with ⟨op, hop, hf⟩ | h2
  · exact h op hop (he ▸ hf)
  · simp [MockBlockchain.init] at h2

theorem transaction_counter_runRecords : ∀ (tups : List BatchTup) (bc : MockBlockchain),
    (runRecords bc tups)._transaction_counter = bc._transaction_counter + tups.length := by
  intro tups
  induction tups with
  | nil => intro bc; simp [runRecords]
  | cons r rest ih =>
    intro bc
    have : runRecords bc (r :: rest) =
        runRecords ((bc.record_hash r.1 r.2.1 r.2.2.1 r.2.2.2).2) rest := rfl
    rw [this, ih, transaction_counter_record_hash]
    simp [Nat.add_assoc, Nat.add_comm 1]

theorem mockInvariant_runRecords : ∀ (tups : List BatchTup) {bc : MockBlockchain},
    MockInvariant bc → MockInvariant (runRecords bc tups) := by
  intro tups
  induction tups with
  | nil => intro bc h; simpa [runRecords] using h
  | cons r rest ih =>
    intro bc h
    have he : runRecords bc (r :: rest) =
        runRecords ((bc.record_hash r.1 r.2.1 r.2.2.1 r.2.2.2).2) rest := rfl
    rw [he]
    exact ih (mockInvariant_record_hash r.1 r.2.1 r.2.2.1 r.2.2.2 h)

theorem charOfNat_digit_inj : ∀ x, x < 10 → ∀ y, y < 10 →
    Char.ofNat (48 + x) = Char.ofNat (48 + y) → x = y := by decide

theorem getLast_decDigits (n : Nat) :
    (decDigits n).getLast? = some (Char.ofNat (48 + n % 10)) := by
  show (decDigitsAux (n + 1) n).getLast? = _
  rw [decDigitsAux]
  split
  · next hlt => simp [Nat.mod_eq_of_lt hlt]
  · next hge => rw [List.getLast?_append_cons]; rfl

theorem decDigits_ne_nil (n : Nat) : decDigits n ≠ [] := by
  intro h
  have h2 := getLast_decDigits n
  rw [h] at h2
  simp at h2

theorem getLast_pad8 (n : Nat) :
    (pad8 n).data.getLast? = some (Char.ofNat (48 + n % 10)) := by
  show (List.replicate (8 - (decDigits n).length) '0' ++ decDigits n).getLast? = _
  rw [List.getLast?_append_of_ne_nil _ (decDigits_ne_nil n), getLast_decDigits]

theorem txId_ne_of_mod_ne {a b : Nat} (h : a % 10 ≠ b % 10) :
    "mock_tx_" ++ pad8 a ≠ "mock_tx_" ++ pad8 b := by
  intro he
  have hd := congrArg String.data he
  rw [String.data_append, String.data_append] at hd
  have hp : (pad8 a).data = (pad8 b).data := List.append_cancel_left hd
  have h1 := getLast_pad8 a
  rw [hp, getLast_pad8 b, Option.some_inj] at h1
  exact h ((charOfNat_digit_inj _ (Nat.mod_lt b (by norm_num)) _
    (Nat.mod_lt a (by norm_num)) h1).symm)

/-- C6: submitting the same fingerprint twice with different metadata
overwrites: the subsequent lookup returns the second submission's timestamp,
camera id, geolocation and transaction id, and none of the first's. -/
theorem C6_overwrite_last_write_wins (bc : MockBlockchain) (f : String)
    (t1 : Datetime) (c1 : String) (g1 : Option (Rat × Rat))
    (t2 : Datetime) (c2 : String) (g2 : Option (Rat × Rat))
    (ht : t1.isoformat ≠ t2.isoformat) (hc : c1 ≠ c2) (hg : g1 ≠ g2) :
    ∃ rec : BirthmarkRecord,
      ((((bc.record_hash f t1 c1 g1).2).record_hash f t2 c2 g2).2).verify_hash f = some rec ∧
      rec.timestamp = t2.isoformat ∧ rec.camera_id = c2 ∧ rec.geolocation = g2 ∧
      rec.transaction_id = some ((((bc.record_hash f t1 c1 g1).2).record_hash f t2 c2 g2).1) ∧
      rec.timestamp ≠ t1.isoformat ∧ rec.camera_id ≠ c1 ∧ rec.geolocation ≠ g1 ∧
      rec.transaction_id ≠ some ((bc.record_hash f t1 c1 g1).1) := by
  refine ⟨⟨f, t2.isoformat, c2, g2,
      some ("mock_tx_" ++ pad8 (bc._transaction_counter + 1 + 1)),
      some ((bc.record_hash f t1 c1 g1).2)._block_counter,
      some bc.network⟩,
    ?_, rfl, rfl, rfl, rfl, fun hh => ht hh.symm, fun hh => hc hh.symm,
    fun hh => hg hh.symm, ?_⟩
  · simp [MockBlockchain.record_hash, MockBlockchain.verify_hash, dictGet_dictInsert_self]
  · intro hh
    rw [Option.some_inj] at hh
    exact @txId_ne_of_mod_ne (bc._transaction_counter + 1 + 1)
      (bc._transaction_counter + 1) (by omega) hh

/-- C5: from a fresh mock backend, any 10 sequential `record_hash` calls move
the block counter from 1000 to exactly 1001, and any 25 sequential calls move
it to exactly 1002. -/
theorem C5_block_after_10_and_25 (network : String) (d : Bool)
    (tups tens : List BatchTup) (h10 : tens.length = 10) (h25 : tups.length = 25) :
    (runRecords (MockBlockchain.init network d) tens)._block_counter = 1001 ∧
    (runRecords (MockBlockchain.init network d) tups)._block_counter = 1002 := by
  have inv10 := (mockInvariant_runRecords tens (mockInvariant_init network d)).1
  have inv25 := (mockInvariant_runRecords tups (mockInvariant_init network d)).1
  rw [transaction_counter_runRecords] at inv10 inv25
  simp [MockBlockchain.init, h10] at inv10
  simp [MockBlockchain.init, h25] at inv25
  exact ⟨inv10, inv25⟩

/-- C8 counterexample: the factory lower-cases the backend name before
formatting the error, so for the unknown name `"MOCKCHAIN"` the message names
`"mockchain"` and does not contain the value as supplied. -/
theorem C8_counterexample_message_is_lowercased :
    get_blockchain_interface env0 "MOCKCHAIN" kwargs0 =
      .error (.valueError "Unknown backend: mockchain. Available: mock, ethereum, loopring") ∧
    hasSub "MOCKCHAIN".data
      "Unknown backend: mockchain. Available: mock, ethereum, loopring".data = false ∧
    hasSub "mockchain".data
      "Unknown backend: mockchain. Available: mock, ethereum, loopring".data = true := by
  exact ⟨rfl, by decide, by decide⟩

/-- C8 (amended): an unknown backend name yields an `UnknownBackend` error
whose message names the lower-cased offending value and lists the known set,
and no backend value is produced; names in the known set are matched after
lower-casing: `mock` and `loopring` always construct, `ethereum` constructs
whenever `web3` imports and a reachable `provider_url` is configured. -/
theorem C8_factory_dispatch (env : PyEnv) (kwargs : BackendKwargs) (name : String)
    (hunk : pyLower name ∉ ["mock", "ethereum", "loopring"]) :
    get_blockchain_interface env name kwargs =
      .error (.valueError ("Unknown backend: " ++ pyLower name ++
        ". Available: mock, ethereum, loopring")) ∧
    (∀ (env2 : PyEnv) (k2 : BackendKwargs) (nm : String), pyLower nm = "mock" →
      ∃ b, get_blockchain_interface env2 nm k2 = .ok (.mock b)) ∧
    (∀ (env2 : PyEnv) (k2 : BackendKwargs) (nm : String), pyLower nm = "loopring" →
      ∃ b, get_blockchain_interface env2 nm k2 = .ok (.loopring b)) ∧
    (∀ (env2 : PyEnv) (k2 : BackendKwargs) (nm url : String),
      pyLower nm = "ethereum" → env2.web3_available = true →
      k2.provider_url = some url → env2.connects url = true →
      ∃ b, get_blockchain_interface env2 nm k2 = .ok (.ethereum b)) := by
  simp only [List.mem_cons, List.not_mem_nil, or_false, not_or] at hunk
  obtain ⟨h1, h2, h3⟩ := hunk
  refine ⟨?_, ?_, ?_, ?_⟩
  · simp [get_blockchain_interface, h1, h2, h3]
  · intro env2 k2 nm hm
    exact ⟨MockBlockchain.init (k2.network.getD "mock-testnet") (k2.simulate_delay.getD true),
      by simp [get_blockchain_interface, hm]⟩
  · intro env2 k2 nm hm
    exact ⟨⟨k2.network.getD "mainnet", k2.api_key, k2.account_id⟩,
      by simp [get_blockchain_interface, hm]⟩
  · intro env2 k2 nm url hm hw hp hc
    exact ⟨⟨k2.network.getD "sepolia", some url, k2.private_key, k2.contract_address⟩,
      by simp [get_blockchain_interface, hm, EthereumBlockchain.init, hw, hp, hc, Except.map]⟩

/-- C10: the module-level convenience functions build a throwaway backend per
call, so a mock-backend lookup through `verify_from_blockchain` always sees a
fresh empty store and returns `None`, whatever was recorded before; likewise
every `record_to_blockchain` call gets the fresh backend's first transaction
id. -/
theorem C10_convenience_builds_fresh_backend (env : PyEnv) (kwargs : BackendKwargs)
    (h : String) (t : Datetime) (c : String) (g : Option (Rat × Rat)) :
    verify_from_blockchain env h "mock" kwargs = .ok none ∧
    record_to_blockchain env h t c g "mock" kwargs = .ok "mock_tx_00000001" := by
  have hm : pyLower "mock" = "mock" := by decide
  constructor
  · simp [verify_from_blockchain, get_blockchain_interface, hm, MockBlockchain.init,
      MockBlockchain.verify_hash, dictGet]
  · have hp : "mock_tx_" ++ pad8 1 = "mock_tx_00000001" := by decide
    simp [record_to_blockchain, get_blockchain_interface, hm, MockBlockchain.init,
      MockBlockchain.record_hash, hp]

end Chain

theorem length_toHexNibbles : ∀ (k x : Nat), (toHexNibbles k x).length = k := by
  intro k
  induction k with
  | zero => intro x; rfl
  | succ k ih => intro x; simp [toHexNibbles, ih]

theorem length_shaHex (cfg : ShaCfg) (msg : List Nat) :
    (shaHex cfg msg).length = 8 * (cfg.bits / 4) := by
  simp only [shaHex, String.length, hvToHex, List.length_append, length_toHexNibbles]
  omega

/-- C2: verifying data against the digest that `compute_image_hash` returned
for it yields `True`; verifying different data against that digest yields
`False` exactly when the recomputed digest differs, which is the claim's
"collisions treated as negligible" caveat made explicit. -/
theorem C2_verify_roundtrip (now now2 now3 : Datetime) (data data2 : List Nat)
    (a d : String) (hc : Hash.compute_image_hash now data a = .ok (d, now))
    (hne : data2 ≠ data) :
    Hash.verify_hash now2 data d a = .ok true ∧
    (Hash.verify_hash now3 data2 d a = .ok false ↔
      Hash.hexdigest a data2 ≠ Hash.hexdigest a data) := by
  by_cases hmem : a ∈ Hash.algorithms_available
  · rw [Hash.compute_image_hash, if_neg (not_not_intro hmem)] at hc
    have hd : d = Hash.hexdigest a data := by
      injection hc with hc2
      exact (congrArg Prod.fst hc2).symm
    subst hd
    constructor
    · rw [Hash.verify_hash, Hash.compute_image_hash, if_neg (not_not_intro hmem)]
      simp
    · rw [Hash.verify_hash, Hash.compute_image_hash, if_neg (not_not_intro hmem)]
      simp
  · rw [Hash.compute_image_hash, if_pos hmem] at hc
    simp at hc

/-- C3: an algorithm name outside the fixed supported set is rejected with
`Unsupported algorithm: <name>` and the result is independent of the input
bytes (no byte is ever hashed); the supported set is a fixed constant holding
a 256-bit digest (`sha256`, 64 hex characters) and a 512-bit digest
(`sha512`, 128 hex characters). -/
theorem C3_unsupported_algorithm_rejected (a : String)
    (h : a ∉ Hash.algorithms_available) :
    (∀ (now : Datetime) (data : List Nat), Hash.compute_image_hash now data a =
      .error (.valueError ("Unsupported algorithm: " ++ a))) ∧
    (∀ (now : Datetime) (data data2 : List Nat),
      Hash.compute_image_hash now data a = Hash.compute_image_hash now data2 a) ∧
    "sha256" ∈ Hash.algorithms_available ∧ "sha512" ∈ Hash.algorithms_available ∧
    (∀ data : List Nat, (Hash.hexdigest "sha256" data).length = 64) ∧
    (∀ data : List Nat, (Hash.hexdigest "sha512" data).length = 128) := by
  refine ⟨?_, ?_, by decide, by decide, ?_, ?_⟩
  · intro now data
    rw [Hash.compute_image_hash, if_pos h]
  · intro now data data2
    rw [Hash.compute_image_hash, if_pos h, Hash.compute_image_hash, if_pos h]
  · intro data
    have he : Hash.hexdigest "sha256" data = shaHex sha256Cfg data := by
      simp [Hash.hexdigest]
    rw [he, length_shaHex]
    simp [sha256Cfg]
  · intro data
    have he : Hash.hexdigest "sha512" data = shaHex sha512Cfg data := by
      simp [Hash.hexdigest]
    rw [he, length_shaHex]
    simp [sha512Cfg]

/-- C2 witness: on the concrete bytes `[97]` and `[98]` under `sha256`, the
digest of `[97]` verifies `[97]` and fails to verify `[98]`; the two digests
are evaluated and differ. -/
theorem C2_witness :
    Hash.compute_image_hash now0 [97] "sha256" = .ok (Hash.hexdigest "sha256" [97], now0) ∧
    ([98] : List Nat) ≠ [97] ∧
    Hash.verify_hash now0 [97] (Hash.hexdigest "sha256" [97]) "sha256" = .ok true ∧
    Hash.verify_hash now1 [98] (Hash.hexdigest "sha256" [97]) "sha256" = .ok false := by
  have h := C2_verify_roundtrip now0 now0 now1 [97] [98] "sha256"
    (Hash.hexdigest "sha256" [97]) rfl (by decide)
  exact ⟨rfl, by decide, h.1, h.2.mpr (by decide)⟩

/-- C3 witness: the algorithm name `invalid_algo` (the one from the source's
doctests) is unsupported and is rejected with the documented error. -/
theorem C3_witness :
    "invalid_algo" ∉ Hash.algorithms_available ∧
    Hash.compute_image_hash now0 [0, 1, 2, 3, 4] "invalid_algo" =
      .error (.valueError ("Unsupported algorithm: " ++ "invalid_algo")) := by
  have h := C3_unsupported_algorithm_rejected "invalid_algo" (by decide)
  exact ⟨by decide, h.1 now0 [0, 1, 2, 3, 4]⟩

/-- C4 witness: after recording fingerprint `aa`, looking up the never
submitted fingerprint `bb` returns `none`. -/
theorem C4_witness :
    (∀ op ∈ [Chain.MockOp.record "aa" now0 "camera_001" none],
      "bb" ∉ Chain.opHashes op) ∧
    (Chain.run (Chain.MockBlockchain.init "mock-testnet" true)
      [Chain.MockOp.record "aa" now0 "camera_001" none]).verify_hash "bb" = none := by
  refine ⟨by decide, ?_⟩
  exact Chain.C4_lookup_never_submitted "mock-testnet" true _ "bb" (by decide)

/-- C5 witness: ten concrete submissions leave the block counter at 1001 and
twenty-five leave it at 1002. -/
theorem C5_witness :
    (List.replicate 10 (("h", now0, "camera_001", none) : Chain.BatchTup)).length = 10 ∧
    (List.replicate 25 (("h", now0, "camera_001", none) : Chain.BatchTup)).length = 25 ∧
    (Chain.runRecords (Chain.MockBlockchain.init "mock-testnet" false)
      (List.replicate 10 (("h", now0, "camera_001", none) : Chain.BatchTup)))._block_counter
      = 1001 ∧
    (Chain.runRecords (Chain.MockBlockchain.init "mock-testnet" false)
      (List.replicate 25 (("h", now0, "camera_001", none) : Chain.BatchTup)))._block_counter
      = 1002 := by
  have h := Chain.C5_block_after_10_and_25 "mock-testnet" false
    (List.replicate 25 (("h", now0, "camera_001", none) : Chain.BatchTup))
    (List.replicate 10 (("h", now0, "camera_001", none) : Chain.BatchTup))
    (by simp) (by simp)
  exact ⟨by simp, by simp, h.1, h.2⟩

/-- C6 witness: submitting fingerprint `abc123` twice with different
timestamp, camera and geolocation leaves the second submission's metadata in
the store. -/
theorem C6_witness :
    now0.isoformat ≠ now1.isoformat ∧ ("camera_001" : String) ≠ "camera_002" ∧
    (none : Option (Rat × Rat)) ≠ some (45, -122) ∧
    (∃ rec : Chain.BirthmarkRecord,
      (((((Chain.MockBlockchain.init "mock-testnet" true).record_hash
            "abc123" now0 "camera_001" none).2).record_hash
            "abc123" now1 "camera_002" (some (45, -122))).2).verify_hash "abc123" = some rec ∧
      rec.timestamp = now1.isoformat ∧ rec.camera_id = "camera_002" ∧
      rec.geolocation = some (45, -122) ∧
      rec.transaction_id = some (((((Chain.MockBlockchain.init "mock-testnet" true).record_hash
            "abc123" now0 "camera_001" none).2).record_hash
            "abc123" now1 "camera_002" (some (45, -122))).1) ∧
      rec.timestamp ≠ now0.isoformat ∧ rec.camera_id ≠ "camera_001" ∧
      rec.geolocation ≠ none ∧
      rec.transaction_id ≠ some (((Chain.MockBlockchain.init "mock-testnet" true).record_hash
            "abc123" now0 "camera_001" none).1)) := by
  refine ⟨by decide, by decide, by decide, ?_⟩
  exact Chain.C6_overwrite_last_write_wins (Chain.MockBlockchain.init "mock-testnet" true)
    "abc123" now0 "camera_001" none now1 "camera_002" (some (45, -122))
    (by decide) (by decide) (by decide)

/-- C8 witness: `MOCKCHAIN` lower-cases to an unknown name and is rejected
with the lower-cased message, while `MoCk` lower-cases to `mock` and yields a
mock backend. -/
theorem C8_witness :
    Chain.pyLower "MOCKCHAIN" ∉ ["mock", "ethereum", "loopring"] ∧
    Chain.get_blockchain_interface env0 "MOCKCHAIN" kwargs0 =
      .error (.valueError ("Unknown backend: " ++ Chain.pyLower "MOCKCHAIN" ++
        ". Available: mock, ethereum, loopring")) ∧
    (∃ b, Chain.get_blockchain_interface env0 "MoCk" kwargs0 = .ok (.mock b)) := by
  have h := Chain.C8_factory_dispatch env0 kwargs0 "MOCKCHAIN" (by decide)
  exact ⟨by decide, h.1, h.2.1 env0 kwargs0 "MoCk" (by decide)⟩

end Birthmark
